import Mathlib

/-!
Shallow embedding of the analytics repository (src/app.py, src/data_analytics.py,
src/generate_report.py).  Tables are pandas DataFrames; we model a DataFrame as a
list of column names together with a list of rows, where a row is an association
list from column names to cells.  A cell is either an absent marker (pandas
NaN/NaT), a rational number (pandas float, with explicit plus/minus infinity for
the results of float division by zero), a raw string, or a parsed date.  The
dictionary of loaded DataFrames (`dfs` / `data` in the scripts) is modelled as an
association list from table names to frames.  In-place column assignments of the
scripts become explicit store updates; a pandas KeyError or FileNotFoundError
becomes `Option.none` or `Except.error`.
-/

/-- A pandas cell value.  `na` is the absent marker (NaN for numeric data, NaT
for dates); `pinf`/`ninf` model the IEEE infinities produced by float division
by zero (they are distinct from `na`, and `fillna` does not replace them). -/
inductive Cell where
  | na : Cell
  | num (q : ℚ) : Cell
  | str (s : String) : Cell
  | date (d : ℤ) : Cell
  | pinf : Cell
  | ninf : Cell
deriving DecidableEq

/-- Lookup in an association list keyed by strings (first binding wins, as in a
python dict / a DataFrame with unique column labels). -/
def aget {α : Type} (l : List (String × α)) (k : String) : Option α :=
  (l.find? (fun p => p.1 == k)).map (fun p => p.2)

/-- Update in an association list: replace the first binding of the key, or
append a new binding if the key is absent (python dict / DataFrame column
assignment; the scripts only build mappings with unique keys). -/
def aset {α : Type} : List (String × α) → String → α → List (String × α)
  | [], k, v => [(k, v)]
  | p :: l, k, v => if p.1 == k then (k, v) :: l else p :: aset l k v

/-- A row of a DataFrame: bindings from column names to cells. -/
abbrev Row := List (String × Cell)

/-- Reading a cell of a row; a column a row does not bind reads as NaN
(callers check column existence at the frame level, mirroring pandas). -/
def rowGet (r : Row) (c : String) : Cell := (aget r c).getD Cell.na

/-- A DataFrame: its column labels and its rows. -/
structure Frame where
  cols : List String
  rows : List Row
deriving DecidableEq

/-- The dictionary of loaded DataFrames (`dfs` in the scripts). -/
abbrev Store := List (String × Frame)

/-- `name in dfs` / `dfs[name]` lookup. -/
def Store.get? (s : Store) (n : String) : Option Frame := aget s n

/-- `dfs[name] = frame` assignment. -/
def Store.set (s : Store) (n : String) (f : Frame) : Store := aset s n f

/-- `name in dfs` membership test. -/
def Store.has (s : Store) (n : String) : Bool := (aget s n).isSome

/-- `df[c] = df[c].map g`: transform one existing column cell-wise (all call
sites establish `c ∈ f.cols` first, mirroring the guarded pandas accesses). -/
def Frame.mapCol (f : Frame) (c : String) (g : Cell → Cell) : Frame :=
  ⟨f.cols, f.rows.map (fun r => aset r c (g (rowGet r c)))⟩

/-- `df[c] = <series computed from each row>`: assign a (possibly new) column. -/
def Frame.withCol (f : Frame) (c : String) (g : Row → Cell) : Frame :=
  ⟨if c ∈ f.cols then f.cols else f.cols ++ [c],
   f.rows.map (fun r => aset r c (g r))⟩

/-- Boolean-mask row selection `df[mask]`. -/
def Frame.filterRows (f : Frame) (p : Row → Bool) : Frame :=
  ⟨f.cols, f.rows.filter p⟩

/-- Column projection `df[[c1, ..., ck]]`. -/
def Frame.selectCols (f : Frame) (cs : List String) : Frame :=
  ⟨cs, f.rows.map (fun r => cs.map (fun c => (c, rowGet r c)))⟩

/-- `df.fillna(0)`: replace every NaN cell by the number 0 (infinities are not
NaN and are kept). -/
def fillna0 (c : Cell) : Cell := if c = Cell.na then Cell.num 0 else c

/-- `df.fillna(0)` over a whole frame. -/
def Frame.fillna0F (f : Frame) : Frame :=
  ⟨f.cols, f.rows.map (fun r => r.map (fun p => (p.1, fillna0 p.2)))⟩

/-- Decimal-digit parser used by the numeric and date parsers. -/
def parseNatDigits (s : String) : Option ℕ :=
  if s.length ≠ 0 ∧ s.all Char.isDigit then
    some (s.foldl (fun a c => a * 10 + (c.toNat - 48)) 0)
  else none

/-- Model of the numeric parser behind `pd.to_numeric` on strings: an optional
leading minus sign, digits, an optional fractional part.  Anything else fails
(and `errors='coerce'` turns the failure into NaN). -/
def parseNumStr (s : String) : Option ℚ :=
  let core := fun (t : String) =>
    match t.splitOn "." with
    | [a] => (parseNatDigits a).map (fun n => (n : ℚ))
    | [a, b] =>
      match parseNatDigits a, parseNatDigits b with
      | some n, some m => some ((n : ℚ) + (m : ℚ) / ((10 : ℚ) ^ b.length))
      | _, _ => none
    | _ => none
  if s.startsWith "-" then (core (s.drop 1)).map (fun q => -q) else core s

/-- Model of the date parser behind `pd.to_datetime` on strings: an ISO
`YYYY-MM-DD` literal, encoded as the integer `y * 10000 + m * 100 + d`.
Anything else fails (and `errors='coerce'` turns the failure into NaT). -/
def parseDateStr (s : String) : Option ℤ :=
  match s.splitOn "-" with
  | [y, m, d] =>
    match parseNatDigits y, parseNatDigits m, parseNatDigits d with
    | some yy, some mm, some dd =>
      if 1 ≤ mm ∧ mm ≤ 12 ∧ 1 ≤ dd ∧ dd ≤ 31 then
        some ((yy : ℤ) * 10000 + (mm : ℤ) * 100 + (dd : ℤ))
      else none
    | _, _, _ => none
  | _ => none

/-- `pd.to_datetime(col, errors='coerce')` on one cell: strings are parsed
(unparseable ones coerce to NaT), already-converted dates pass through
unchanged, NaN/NaT stays absent; a numeric input is read as an epoch offset
(abstracted as its floor), the scripts never exercise that case. -/
def toDatetime : Cell → Cell
  | Cell.str s => match parseDateStr s with
    | some d => Cell.date d
    | none => Cell.na
  | Cell.num q => Cell.date ⌊q⌋
  | Cell.date d => Cell.date d
  | Cell.na => Cell.na
  | Cell.pinf => Cell.na
  | Cell.ninf => Cell.na

/-- `pd.to_numeric(col, errors='coerce')` on one cell: strings are parsed
(unparseable ones coerce to NaN), numbers pass through unchanged, NaN stays
absent; a datetime input coerces to its integer encoding (the scripts never
exercise that case). -/
def toNumeric : Cell → Cell
  | Cell.str s => match parseNumStr s with
    | some q => Cell.num q
    | none => Cell.na
  | Cell.num q => Cell.num q
  | Cell.na => Cell.na
  | Cell.date d => Cell.num (d : ℚ)
  | Cell.pinf => Cell.pinf
  | Cell.ninf => Cell.ninf

/-- `pd.to_numeric(col, errors='coerce').fillna(0)` on one cell: the numeric
cleaning step that data_analytics.etl_process (lines 56-68) and
generate_report.load_and_clean (lines 25-33) apply to the money columns. -/
def numClean (c : Cell) : Cell := fillna0 (toNumeric c)

/-- The kind of conversion a cleaning step performs. -/
inductive Conv where
  | cdate : Conv
  | cnum : Conv
deriving DecidableEq

/-- The cell transformation of a conversion kind. -/
def cellConv : Conv → Cell → Cell
  | Conv.cdate => toDatetime
  | Conv.cnum => numClean

/-- One column-cleaning step of an ETL pass: which table, which column, which
conversion, and whether a missing column is a KeyError (`strict`, the unguarded
numeric assignments) or is skipped (the `if col in df.columns` date guards). -/
structure Job where
  tbl : String
  col : String
  conv : Conv
  strict : Bool
deriving DecidableEq

/-- Run one cleaning step on the store.  A table absent from the store is
skipped (the scripts guard every step with `if name in dfs`); a missing column
is skipped for guarded steps and raises (`none`) for strict ones. -/
def runJob (s : Store) (j : Job) : Option Store :=
  match Store.get? s j.tbl with
  | none => some s
  | some f =>
    if j.col ∈ f.cols then some (Store.set s j.tbl (f.mapCol j.col (cellConv j.conv)))
    else if j.strict then none else some s

/-- Total order on cells used when pandas sorts group keys (`groupby` has
`sort=True` by default); the concrete order between cells of different kinds is
a deterministic stand-in and no theorem depends on it. -/
def cellRank : Cell → ℕ
  | Cell.na => 0
  | Cell.num _ => 1
  | Cell.str _ => 2
  | Cell.date _ => 3
  | Cell.pinf => 4
  | Cell.ninf => 5

/-- Boolean comparison realising the cell order. -/
def cellLe (a b : Cell) : Bool :=
  match a, b with
  | Cell.num x, Cell.num y => decide (x ≤ y)
  | Cell.str x, Cell.str y => decide (x ≤ y)
  | Cell.date x, Cell.date y => decide (x ≤ y)
  | _, _ => decide (cellRank a ≤ cellRank b)

/-- The cell order as a decidable relation (for `List.insertionSort`). -/
def cellLeP (a b : Cell) : Prop := cellLe a b = true

instance : DecidableRel cellLeP := fun a b =>
  inferInstanceAs (Decidable (cellLe a b = true))

/-- The distinct non-NaN values of a column, in order of first appearance.
Rows whose group key is NaN are excluded: pandas `groupby` drops NaN keys
(`dropna=True` by default). -/
def dkeys (rows : List Row) (key : String) : List Cell :=
  rows.foldl
    (fun acc r =>
      let k := rowGet r key
      if k = Cell.na ∨ k ∈ acc then acc else acc ++ [k]) []

/-- Numeric reading of a cell inside a column sum: pandas `sum()` skips NaN
(and any non-numeric cell contributes nothing; after cleaning the summed
columns hold numbers). -/
def cellQ : Cell → ℚ
  | Cell.num q => q
  | _ => 0

/-- `df.groupby(key)[val].sum().reset_index(name=out)`: one output row per
distinct non-NaN key (sorted, `sort=True`), holding the key and the NaN-skipping
sum of `val` over the rows of that group. -/
def groupbySumFrame (f : Frame) (key val out : String) : Frame :=
  ⟨[key, out],
   (List.insertionSort cellLeP (dkeys f.rows key)).map
     (fun k =>
       [(key, k),
        (out, Cell.num
          (((f.rows.filter (fun r => rowGet r key == k)).map
            (fun r => cellQ (rowGet r val))).sum))])⟩

/-- `df[c].sum()`: NaN-skipping column sum. -/
def colSum (f : Frame) (c : String) : ℚ :=
  (f.rows.map (fun r => cellQ (rowGet r c))).sum

/-- `df[c].mean()`: NaN-skipping column mean (NaN when no numeric cell). -/
def colMean (f : Frame) (c : String) : Cell :=
  let qs := (f.rows.map (fun r => rowGet r c)).filterMap
    (fun x => match x with
      | Cell.num q => some q
      | _ => none)
  if qs.length = 0 then Cell.na else Cell.num (qs.sum / (qs.length : ℚ))

/-- Pointwise float addition for derived columns (NaN propagates; the
infinity cases are fixed deterministically, IEEE-style). -/
def cellAdd : Cell → Cell → Cell
  | Cell.num a, Cell.num b => Cell.num (a + b)
  | Cell.pinf, Cell.num _ => Cell.pinf
  | Cell.num _, Cell.pinf => Cell.pinf
  | Cell.ninf, Cell.num _ => Cell.ninf
  | Cell.num _, Cell.ninf => Cell.ninf
  | Cell.pinf, Cell.pinf => Cell.pinf
  | Cell.ninf, Cell.ninf => Cell.ninf
  | _, _ => Cell.na

/-- Pointwise float subtraction for derived columns. -/
def cellSub : Cell → Cell → Cell
  | Cell.num a, Cell.num b => Cell.num (a - b)
  | Cell.pinf, Cell.num _ => Cell.pinf
  | Cell.num _, Cell.pinf => Cell.ninf
  | Cell.ninf, Cell.num _ => Cell.ninf
  | Cell.num _, Cell.ninf => Cell.pinf
  | _, _ => Cell.na

/-- Pointwise float multiplication for derived columns. -/
def cellMul : Cell → Cell → Cell
  | Cell.num a, Cell.num b => Cell.num (a * b)
  | Cell.pinf, Cell.num b =>
    if b = 0 then Cell.na else if 0 < b then Cell.pinf else Cell.ninf
  | Cell.num a, Cell.pinf =>
    if a = 0 then Cell.na else if 0 < a then Cell.pinf else Cell.ninf
  | Cell.ninf, Cell.num b =>
    if b = 0 then Cell.na else if 0 < b then Cell.ninf else Cell.pinf
  | Cell.num a, Cell.ninf =>
    if a = 0 then Cell.na else if 0 < a then Cell.ninf else Cell.pinf
  | _, _ => Cell.na

/-- Pointwise float division for derived columns.  Division by the float zero
does not raise: `0 / 0` is NaN and `a / 0` is a signed infinity, exactly what
the unguarded pandas division in perform_eda line 93 produces. -/
def cellDiv : Cell → Cell → Cell
  | Cell.num a, Cell.num b =>
    if b = 0 then
      (if a = 0 then Cell.na else if 0 < a then Cell.pinf else Cell.ninf)
    else Cell.num (a / b)
  | _, _ => Cell.na

/-- How a merge treats left rows without a key match. -/
inductive MergeHow where
  | left : MergeHow
  | inner : MergeHow
deriving DecidableEq

/-- `left.merge(right, on=on, how=how)`.  For each left row in order: the
matching right rows (equal key cell) each contribute a combined row; a left row
with no match is kept with the right-side columns set to NaN under `how='left'`
and dropped under `how='inner'` (the pandas default).  The key column is kept
once; the call sites have no other overlapping column names, so the suffixing
pandas would apply to overlaps is not modelled. -/
def Frame.merge (l r : Frame) (key : String) (how : MergeHow) : Frame :=
  let rcols := r.cols.filter (fun c => c != key)
  ⟨l.cols ++ rcols,
   l.rows.flatMap (fun lr =>
     match r.rows.filter (fun rr => rowGet rr key == rowGet lr key), how with
     | [], MergeHow.left => [lr ++ rcols.map (fun c => (c, Cell.na))]
     | [], MergeHow.inner => []
     | ms, _ => ms.map (fun rr => lr ++ rcols.map (fun c => (c, rowGet rr c))))⟩

namespace DataAnalytics

/-- The table-name / file-name pairs of data_analytics.load_data (lines 11-23),
in source order. -/
def da_files : List (String × String) :=
  [("assignments", "assignments.csv"),
   ("clients", "clients.csv"),
   ("employees", "employees.csv"),
   ("expenses", "expenses.csv"),
   ("milestones", "project_milestones.csv"),
   ("projects", "projects.csv"),
   ("purchase_orders", "purchase_orders.csv"),
   ("risks", "risks.csv"),
   ("tasks", "tasks.csv"),
   ("timesheets", "timesheets.csv"),
   ("vendors", "vendors.csv")]

/-- data_analytics.load_data (lines 9-32): for each file, load it if it exists
on disk, otherwise print a warning and continue.  `disk` maps a file name to
the frame its CSV parses to, or `none` when the file is absent. -/
def load_data (disk : String → Option Frame) : Store :=
  da_files.foldl
    (fun dfs p =>
      match disk p.2 with
      | some df => Store.set dfs p.1 df
      | none => dfs) []

/-- The cleaning steps of data_analytics.etl_process (lines 34-71) in source
order: the guarded date conversions of the `date_cols` dictionary (lines 39-54),
then the unguarded numeric conversions (lines 56-68).  A date step skips a
missing column (`if col in dfs[name].columns`); a numeric step reads the column
unconditionally, so a missing column is a KeyError (strict). -/
def etlJobs : List Job :=
  [⟨"projects", "start_date", Conv.cdate, false⟩,
   ⟨"projects", "end_date", Conv.cdate, false⟩,
   ⟨"assignments", "start_date", Conv.cdate, false⟩,
   ⟨"assignments", "end_date", Conv.cdate, false⟩,
   ⟨"expenses", "date", Conv.cdate, false⟩,
   ⟨"milestones", "planned_start", Conv.cdate, false⟩,
   ⟨"milestones", "planned_end", Conv.cdate, false⟩,
   ⟨"purchase_orders", "issue_date", Conv.cdate, false⟩,
   ⟨"tasks", "start_date", Conv.cdate, false⟩,
   ⟨"tasks", "end_date", Conv.cdate, false⟩,
   ⟨"timesheets", "date", Conv.cdate, false⟩,
   ⟨"employees", "joining_date", Conv.cdate, false⟩,
   ⟨"projects", "budget_aed", Conv.cnum, true⟩,
   ⟨"projects", "completion_percentage", Conv.cnum, true⟩,
   ⟨"expenses", "amount_aed", Conv.cnum, true⟩,
   ⟨"purchase_orders", "amount_aed", Conv.cnum, true⟩,
   ⟨"employees", "salary_aed", Conv.cnum, true⟩]

/-- data_analytics.etl_process (lines 34-71): run all cleaning steps in order;
`none` models an uncaught KeyError. -/
def etl_process (s : Store) : Option Store := etlJobs.foldlM runJob s

/-- The project financial-health frame of perform_eda (lines 80-93): aggregate
expenses and purchase orders per project, left-merge both onto the selected
project columns with `fillna(0)` after each merge, then derive total actuals,
budget variance, and the (unguarded) budget utilization percentage. -/
def fin_df (projects expenses pos : Frame) : Frame :=
  let proj_expenses := groupbySumFrame expenses "project_id" "amount_aed" "total_expenses"
  let proj_pos := groupbySumFrame pos "project_id" "amount_aed" "total_pos"
  let base := projects.selectCols
    ["project_id", "project_name", "budget_aed", "status", "type"]
  let m1 := (base.merge proj_expenses "project_id" MergeHow.left).fillna0F
  let m2 := (m1.merge proj_pos "project_id" MergeHow.left).fillna0F
  let m3 := m2.withCol "total_actuals"
    (fun r => cellAdd (rowGet r "total_expenses") (rowGet r "total_pos"))
  let m4 := m3.withCol "budget_variance"
    (fun r => cellSub (rowGet r "budget_aed") (rowGet r "total_actuals"))
  m4.withCol "budget_utilization_pct"
    (fun r => cellMul (cellDiv (rowGet r "total_actuals") (rowGet r "budget_aed"))
      (Cell.num 100))

/-- The financial-health section of perform_eda (lines 79-100): it runs only
when the projects, expenses and purchase_orders tables are all loaded
(`if 'projects' in dfs and 'expenses' in dfs and 'purchase_orders' in dfs`);
`none` means the section is skipped, not an error. -/
def perform_eda_financial (dfs : Store) : Option Frame :=
  match Store.get? dfs "projects", Store.get? dfs "expenses", Store.get? dfs "purchase_orders" with
  | some p, some e, some po => some (fin_df p e po)
  | _, _, _ => none

/-- The top-loggers computation of perform_eda (lines 121-122): sum timesheet
hours per employee, then merge employee names with the pandas-default
`how='inner'` (no `how` argument is passed at line 122). -/
def top_loggers_merged (timesheets employees : Frame) : Frame :=
  let top_loggers := groupbySumFrame timesheets "employee_id" "hours_logged" "hours_logged"
  top_loggers.merge (employees.selectCols ["employee_id", "full_name"])
    "employee_id" MergeHow.inner

/-- The vendor-spend computation of perform_eda (lines 140-141): sum purchase
orders per vendor, then merge vendor details with the pandas-default
`how='inner'` (no `how` argument is passed at line 141). -/
def vendor_spend_merged (purchase_orders vendors : Frame) : Frame :=
  let vendor_spend := groupbySumFrame purchase_orders "vendor_id" "amount_aed" "amount_aed"
  vendor_spend.merge (vendors.selectCols ["vendor_id", "vendor_name", "category"])
    "vendor_id" MergeHow.inner

end DataAnalytics

namespace App

/-- The table-name / file-name pairs read by app.load_data (lines 64-73), in
source order. -/
def app_files : List (String × String) :=
  [("projects", "projects.csv"),
   ("employees", "employees.csv"),
   ("tasks", "tasks.csv"),
   ("clients", "clients.csv"),
   ("expenses", "expenses.csv"),
   ("timesheets", "timesheets.csv"),
   ("vendors", "vendors.csv"),
   ("risks", "risks.csv"),
   ("milestones", "project_milestones.csv"),
   ("purchase_orders", "purchase_orders.csv")]

/-- The guarded date conversions of app.load_data (lines 76-87), in source
order: each is wrapped in `if col in data[name].columns`. -/
def appDateCols : List (String × String) :=
  [("projects", "start_date"),
   ("projects", "end_date"),
   ("expenses", "date"),
   ("timesheets", "date"),
   ("milestones", "planned_start"),
   ("milestones", "planned_end")]

/-- Apply guarded date conversions to the store (skip absent tables or
columns). -/
def applyDates (s : Store) (js : List (String × String)) : Store :=
  js.foldl
    (fun s p =>
      match Store.get? s p.1 with
      | some f => if p.2 ∈ f.cols then Store.set s p.1 (f.mapCol p.2 toDatetime) else s
      | none => s) s

/-- app.load_data (lines 59-89): read all ten CSV files unconditionally —
`pd.read_csv` raises FileNotFoundError for an absent file, modelled as
`Except.error` carrying the file name — then run the guarded date
conversions. -/
def load_data (disk : String → Option Frame) : Except String Store := do
  let loaded ← app_files.foldlM
    (fun data p =>
      match disk p.2 with
      | some df => Except.ok (Store.set data p.1 df)
      | none => Except.error p.2) []
  return applyDates loaded appDateCols

/-- The budget-utilization KPI of the Financial Insights page (app.py lines
352-353): `(total_expenses / total_budget) * 100 if total_budget > 0 else 0`. -/
def utilization (total_expenses total_budget : ℚ) : ℚ :=
  if 0 < total_budget then total_expenses / total_budget * 100 else 0

/-- The `.dt.to_period('M').astype(str)` conversion of app.py line 381: the
month period of a date, as a string (with our `y * 10000 + m * 100 + d` date
encoding the period is `d / 100`); `astype(str)` renders NaT as the string
"NaT". -/
def to_period_M (c : Cell) : Cell :=
  match c with
  | Cell.date d => Cell.str (toString (d / 100))
  | _ => Cell.str "NaT"

/-- The Monthly Expense Trend step of the Financial Insights page (app.py line
381): `data['expenses']['month'] = data['expenses']['date'].dt.to_period('M').astype(str)`.
This writes a `month` column into the loaded expenses table itself; the model
returns the updated store.  A missing expenses table or date column would be a
KeyError (`none`). -/
def financial_insights_month_step (data : Store) : Option Store :=
  match Store.get? data "expenses" with
  | none => none
  | some exp =>
    if "date" ∈ exp.cols then
      some (Store.set data "expenses"
        (exp.withCol "month" (fun r => to_period_M (rowGet r "date"))))
    else none

/-- The Project Analytics filter block (app.py lines 259-266): start from
`data['projects'].copy()`, then apply each of the three multiselect filters
only when its selection list is non-empty (`if type_filter:` — an empty list is
falsy), each as an `isin` row mask.  Returns the filtered frame together with
the (unchanged) store; reading a missing projects table would be a KeyError. -/
def maskStep (f : Frame) (sel : List Cell) (c : String) : Frame :=
  if sel.isEmpty then f else f.filterRows (fun r => sel.contains (rowGet r c))

def project_analytics_filter (data : Store) (tf sf pf : List Cell) :
    Option (Frame × Store) :=
  match Store.get? data "projects" with
  | none => none
  | some proj =>
    some (maskStep (maskStep (maskStep proj tf "type") sf "status") pf "priority", data)

end App

namespace Report

/-- The table-name / file-name pairs of generate_report.load_and_clean (lines
8-18), in source order. -/
def report_files : List (String × String) :=
  [("clients", "clients.csv"),
   ("employees", "employees.csv"),
   ("expenses", "expenses.csv"),
   ("projects", "projects.csv"),
   ("purchase_orders", "purchase_orders.csv"),
   ("risks", "risks.csv"),
   ("tasks", "tasks.csv"),
   ("timesheets", "timesheets.csv"),
   ("vendors", "vendors.csv")]

/-- The numeric cleaning steps of load_and_clean (lines 26-33), in source
order; each is guarded by table presence but reads the column unconditionally
(strict). -/
def reportJobs : List Job :=
  [⟨"projects", "budget_aed", Conv.cnum, true⟩,
   ⟨"expenses", "amount_aed", Conv.cnum, true⟩,
   ⟨"purchase_orders", "amount_aed", Conv.cnum, true⟩,
   ⟨"employees", "salary_aed", Conv.cnum, true⟩]

/-- generate_report.load_and_clean (lines 7-35): load the files that exist,
skipping absent ones silently, then run the numeric cleaning steps. -/
def load_and_clean (disk : String → Option Frame) : Option Store :=
  reportJobs.foldlM runJob
    (report_files.foldl
      (fun dfs p =>
        match disk p.2 with
        | some df => Store.set dfs p.1 df
        | none => dfs) [])

/-- The data preparation of generate_html_report (lines 37-75): every table is
read with an unguarded `dfs[name]` lookup, so a missing table is an uncaught
KeyError (`Except.error` carrying the table name).  Returns the financial
frame and the three KPIs (lines 39-49); the chart construction that follows
only reads the remaining tables. -/
def generate_html_report_data (dfs : Store) :
    Except String (Frame × ℚ × ℚ × Cell) := do
  let proj ← (Store.get? dfs "projects").elim (Except.error "projects") Except.ok
  let exps ← (Store.get? dfs "expenses").elim (Except.error "expenses") Except.ok
  let pos ← (Store.get? dfs "purchase_orders").elim (Except.error "purchase_orders") Except.ok
  let exp_sum := groupbySumFrame exps "project_id" "amount_aed" "total_expenses"
  let po_sum := groupbySumFrame pos "project_id" "amount_aed" "total_pos"
  let fin0 := ((proj.merge exp_sum "project_id" MergeHow.left).merge po_sum
    "project_id" MergeHow.left).fillna0F
  let fin := fin0.withCol "total_actuals"
    (fun r => cellAdd (rowGet r "total_expenses") (rowGet r "total_pos"))
  let total_budget := colSum fin "budget_aed"
  let total_spend := colSum fin "total_actuals"
  let avg_completion := colMean fin "completion_percentage"
  let _clients ← (Store.get? dfs "clients").elim (Except.error "clients") Except.ok
  let _tasks ← (Store.get? dfs "tasks").elim (Except.error "tasks") Except.ok
  let _employees ← (Store.get? dfs "employees").elim (Except.error "employees") Except.ok
  let _risks ← (Store.get? dfs "risks").elim (Except.error "risks") Except.ok
  return (fin, total_budget, total_spend, avg_completion)

end Report

/-! Section: Concrete instances used by counterexamples and witnesses.
All cells are already typed (numbers, absent markers, inert strings), exactly
what `pd.read_csv` delivers for numeric and empty CSV fields. -/

deriving instance DecidableEq for Except

/-- A projects table with a single project whose budget is 0. -/
def exProjZero : Frame :=
  ⟨["project_id", "project_name", "budget_aed", "status", "type"],
   [[("project_id", Cell.str "P1"), ("project_name", Cell.str "A"),
     ("budget_aed", Cell.num 0), ("status", Cell.str "Active"),
     ("type", Cell.str "Infra")]]⟩

/-- An empty expenses / purchase-orders table. -/
def exEmptyPE : Frame := ⟨["project_id", "amount_aed"], []⟩

/-- A store whose timesheets table has a missing (NaN) `hours_logged` cell. -/
def exS4 : Store :=
  [("timesheets",
    ⟨["employee_id", "hours_logged", "date"],
     [[("employee_id", Cell.str "E1"), ("hours_logged", Cell.na),
       ("date", Cell.na)]]⟩)]

/-- The ETL result on `exS4`. -/
def exT4 : Store := (DataAnalytics.etl_process exS4).getD []

/-- A loaded store whose expenses table has no `month` column. -/
def exD6 : Store :=
  [("expenses",
    ⟨["expense_id", "date"],
     [[("expense_id", Cell.str "X1"), ("date", Cell.na)]]⟩)]

/-- The store after the Monthly Expense Trend step ran on `exD6`. -/
def exD6' : Store := (App.financial_insights_month_step exD6).getD []

/-- A timesheets table whose only employee id has no employees match. -/
def exTs : Frame :=
  ⟨["employee_id", "hours_logged"],
   [[("employee_id", Cell.str "E9"), ("hours_logged", Cell.num 5)]]⟩

/-- An employees table with no rows. -/
def exEs : Frame := ⟨["employee_id", "full_name"], []⟩

/-- A left frame for the merge witness. -/
def exML : Frame :=
  ⟨["employee_id", "hours_logged"],
   [[("employee_id", Cell.str "E1"), ("hours_logged", Cell.num 5)]]⟩

/-- A right frame matching `exML` on employee_id. -/
def exMR : Frame :=
  ⟨["employee_id", "full_name"],
   [[("employee_id", Cell.str "E1"), ("full_name", Cell.str "Alice")]]⟩

/-- A table with one NaN group key: pandas groupby silently drops its row. -/
def exF9 : Frame :=
  ⟨["g", "v"],
   [[("g", Cell.na), ("v", Cell.num 7)],
    [("g", Cell.str "A"), ("v", Cell.num 10)]]⟩

/-- The partition-law example table of the specification. -/
def exW9 : Frame :=
  ⟨["g", "v"],
   [[("g", Cell.str "A"), ("v", Cell.num 10)],
    [("g", Cell.str "A"), ("v", Cell.num 5)],
    [("g", Cell.str "B"), ("v", Cell.num 7)]]⟩

/-- A store whose projects table carries a negative budget value. -/
def exS8 : Store :=
  [("projects",
    ⟨["project_id", "budget_aed", "completion_percentage"],
     [[("project_id", Cell.str "P1"), ("budget_aed", Cell.num (-5)),
       ("completion_percentage", Cell.num 50)]]⟩)]

/-- The ETL result on `exS8`. -/
def exT8 : Store := (DataAnalytics.etl_process exS8).getD []

/-- A store with an expenses table whose amount column has a NaN cell. -/
def exSW : Store :=
  [("expenses",
    ⟨["project_id", "amount_aed"],
     [[("project_id", Cell.str "P1"), ("amount_aed", Cell.na)]]⟩)]

/-- The ETL result on `exSW`. -/
def exTW : Store := (DataAnalytics.etl_process exSW).getD []

/-- A store exercising several ETL steps, for the idempotence witness. -/
def exS5 : Store :=
  [("timesheets",
    ⟨["employee_id", "hours_logged", "date"],
     [[("employee_id", Cell.str "E1"), ("hours_logged", Cell.na),
       ("date", Cell.na)]]⟩),
   ("projects",
    ⟨["project_id", "budget_aed", "completion_percentage", "start_date"],
     [[("project_id", Cell.str "P1"), ("budget_aed", Cell.num (-5)),
       ("completion_percentage", Cell.na), ("start_date", Cell.date 20240101)]]⟩)]

/-- The ETL result on `exS5`. -/
def exT5 : Store := (DataAnalytics.etl_process exS5).getD []

/-- A disk with exactly one file present. -/
def exDisk : String → Option Frame :=
  fun fn => if fn = "projects.csv" then some exProjZero else none

/-- A projects table for the filter witness. -/
def exProj10 : Frame :=
  ⟨["project_id", "type", "status", "priority", "budget_aed"],
   [[("project_id", Cell.str "P1"), ("type", Cell.str "Infra"),
     ("status", Cell.str "Completed"), ("priority", Cell.str "High"),
     ("budget_aed", Cell.num 10)],
    [("project_id", Cell.str "P2"), ("type", Cell.str "Villa"),
     ("status", Cell.str "In Progress"), ("priority", Cell.str "Low"),
     ("budget_aed", Cell.num 20)]]⟩

/-- A store holding `exProj10`. -/
def exData10 : Store := [("projects", exProj10)]

/-- A well-formed raw input cell for a money column: absent, or a number that
is non-negative, or a string that parses (if at all) to a non-negative number.
This is the hypothesis under which normalization preserves non-negativity. -/
def InputOk : Cell → Prop
  | Cell.na => True
  | Cell.num q => 0 ≤ q
  | Cell.str s => ∀ q, parseNumStr s = some q → 0 ≤ q
  | _ => False

/-- The (table, column) key of a cleaning step. -/
def jobKey (j : Job) : String × String := (j.tbl, j.col)

/-- A store is settled for a cleaning step if the step would not fail on it and
would change nothing: whenever the step's table is loaded, a strict step's
column exists, and if the column exists every row already binds it to a value
its conversion fixes. -/
def JobOk (s : Store) (j : Job) : Prop :=
  ∀ f, Store.get? s j.tbl = some f →
    (j.strict = true → j.col ∈ f.cols) ∧
    (j.col ∈ f.cols → ∀ r ∈ f.rows,
      (aget r j.col).isSome = true ∧ cellConv j.conv (rowGet r j.col) = rowGet r j.col)

/-! Section: Association-list lemmas -/

theorem aget_cons {α : Type} (p : String × α) (l : List (String × α)) (k : String) :
    aget (p :: l) k = if p.1 == k then some p.2 else aget l k := by
  by_cases h : p.1 == k <;>
    simp [aget, List.find?_cons_of_pos, List.find?_cons_of_neg, h]

theorem aget_nil {α : Type} (k : String) : aget ([] : List (String × α)) k = none := rfl

theorem aget_aset_self {α : Type} (l : List (String × α)) (k : String) (v : α) :
    aget (aset l k v) k = some v := by
  induction l with
  | nil => simp [aset, aget_cons]
  | cons p l ih =>
    by_cases h : p.1 == k
    · simp [aset, h, aget_cons]
    · simp [aset, h, aget_cons, ih]

theorem aget_aset_ne {α : Type} (l : List (String × α)) (k k' : String) (v : α)
    (h : k' ≠ k) : aget (aset l k' v) k = aget l k := by
  induction l with
  | nil =>
    simp [aset, aget_cons, aget]
    intro hc
    exact absurd hc h
  | cons p l ih =>
    by_cases hp : p.1 == k'
    · have hp1 : p.1 = k' := by simpa using hp
      simp [aset, hp, aget_cons, hp1, h]
    · simp [aset, hp, aget_cons, ih]

theorem aset_id {α : Type} (l : List (String × α)) (k : String) (v : α)
    (h : aget l k = some v) : aset l k v = l := by
  induction l with
  | nil => simp [aget] at h
  | cons p l ih =>
    by_cases hp : p.1 == k
    · have hp1 : p.1 = k := by simpa using hp
      rw [aget_cons] at h
      simp [hp] at h
      obtain ⟨a, b⟩ := p
      subst hp1
      subst h
      simp [aset]
    · rw [aget_cons] at h
      simp [hp] at h
      simp [aset, hp, ih h]

theorem aset_aset {α : Type} (l : List (String × α)) (k : String) (v w : α) :
    aset (aset l k v) k w = aset l k w := by
  induction l with
  | nil => simp [aset]
  | cons p l ih =>
    by_cases hp : p.1 == k
    · simp [aset, hp]
    · simp [aset, hp, ih]

theorem rowGet_aset_self (r : Row) (c : String) (v : Cell) :
    rowGet (aset r c v) c = v := by
  simp [rowGet, aget_aset_self]

theorem rowGet_aset_ne (r : Row) (c c' : String) (v : Cell) (h : c' ≠ c) :
    rowGet (aset r c' v) c = rowGet r c := by
  simp [rowGet, aget_aset_ne _ _ _ _ h]

theorem isSome_aget_aset_self {α : Type} (l : List (String × α)) (k : String) (v : α) :
    (aget (aset l k v) k).isSome = true := by
  simp [aget_aset_self]

theorem list_map_id_of {α : Type} {l : List α} {f : α → α}
    (h : ∀ x ∈ l, f x = x) : l.map f = l := by
  induction l with
  | nil => rfl
  | cons x l ih =>
    simp only [List.map_cons, h x (by simp)]
    rw [ih (fun y hy => h y (by simp [hy]))]


/-! Section: The multiselect filter block (claim C10) -/

theorem mem_maskStep (f : Frame) (sel : List Cell) (c : String) (r : Row) :
    r ∈ (App.maskStep f sel c).rows ↔
      r ∈ f.rows ∧ (sel ≠ [] → rowGet r c ∈ sel) := by
  cases sel with
  | nil => simp [App.maskStep]
  | cons a l =>
    simp [App.maskStep, Frame.filterRows, List.mem_filter, List.contains, List.elem_iff]

theorem maskStep_cols (f : Frame) (sel : List Cell) (c : String) :
    (App.maskStep f sel c).cols = f.cols := by
  cases sel with
  | nil => rfl
  | cons a l => rfl

/-- Claim C10: in the Project Analytics view, an empty multiselect imposes no
restriction and non-empty selections combine conjunctively — a project row is
kept exactly when, for each filter with a non-empty selection, the row's value
belongs to the selected set; the filtering operates on a copy of the loaded
projects table and returns the store unchanged. -/
theorem c10_project_filter (data : Store) (proj : Frame) (tf sf pf : List Cell)
    (h : Store.get? data "projects" = some proj) :
    ∃ fp, App.project_analytics_filter data tf sf pf = some (fp, data) ∧
      fp.cols = proj.cols ∧
      ∀ r : Row, r ∈ fp.rows ↔ r ∈ proj.rows ∧
        (tf ≠ [] → rowGet r "type" ∈ tf) ∧
        (sf ≠ [] → rowGet r "status" ∈ sf) ∧
        (pf ≠ [] → rowGet r "priority" ∈ pf) := by
  refine ⟨App.maskStep (App.maskStep (App.maskStep proj tf "type") sf "status") pf "priority",
    ?_, ?_, ?_⟩
  · unfold App.project_analytics_filter
    rw [h]
  · rw [maskStep_cols, maskStep_cols, maskStep_cols]
  · intro r
    rw [mem_maskStep, mem_maskStep, mem_maskStep]
    tauto

/-- Witness for C10 at a concrete store: a type selection restricts to the
matching row, empty status/priority selections restrict nothing, and the store
comes back unchanged. -/
theorem c10_project_filter_witness :
    ∃ fp, App.project_analytics_filter exData10 [Cell.str "Infra"] [] [] =
        some (fp, exData10) ∧
      fp.cols = exProj10.cols ∧
      ∀ r : Row, r ∈ fp.rows ↔ r ∈ exProj10.rows ∧
        (([Cell.str "Infra"] : List Cell) ≠ [] → rowGet r "type" ∈ [Cell.str "Infra"]) ∧
        (([] : List Cell) ≠ [] → rowGet r "status" ∈ ([] : List Cell)) ∧
        (([] : List Cell) ≠ [] → rowGet r "priority" ∈ ([] : List Cell)) :=
  c10_project_filter exData10 exProj10 [Cell.str "Infra"] [] [] (by decide)

/-! Section: Ratio and utilization (claim C1) -/

/-- Counterexample to C1 as stated: in perform_eda (line 93) the per-project
budget utilization of a project with budget 0 and actuals 0 is NaN — the
pandas float `0 / 0` — and not the number 0 the claim requires. -/
theorem c1_counterexample :
    rowGet ((DataAnalytics.fin_df exProjZero exEmptyPE exEmptyPE).rows.headD [])
        "budget_utilization_pct" = Cell.na ∧
      Cell.na ≠ Cell.num 0 := by
  constructor
  · simp [DataAnalytics.fin_df, groupbySumFrame, dkeys, cellQ, Frame.merge,
      Frame.selectCols, Frame.withCol, Frame.fillna0F, fillna0, cellAdd, cellSub,
      cellMul, cellDiv, rowGet, aget, aset, exProjZero, exEmptyPE,
      List.insertionSort, List.find?, List.filter, List.flatMap]
  · decide

/-- Amended C1: the module-level utilization of app.py (line 352) is guarded
and yields 0 whenever the total budget is not positive — in particular
ratio(0,0) = 0 and ratio(50,200) = 25 — and `(n / d) * 100` otherwise; but the
per-project utilization column of perform_eda (line 93) divides unguarded, so a
zero budget yields NaN (when the actuals are 0) or plus infinity (when they are
positive), never the number 0; no exception is raised in either case. -/
theorem c1_amended :
    (∀ e : ℚ, App.utilization e 0 = 0) ∧
    (∀ e b : ℚ, 0 < b → App.utilization e b = e / b * 100) ∧
    App.utilization 0 0 = 0 ∧
    App.utilization 50 200 = 25 ∧
    cellMul (cellDiv (Cell.num 0) (Cell.num 0)) (Cell.num 100) = Cell.na ∧
    (∀ a : ℚ, 0 < a →
      cellMul (cellDiv (Cell.num a) (Cell.num 0)) (Cell.num 100) = Cell.pinf) := by
  refine ⟨?_, ?_, ?_, ?_, ?_, ?_⟩
  · intro e
    simp [App.utilization]
  · intro e b hb
    simp [App.utilization, hb]
  · simp [App.utilization]
  · norm_num [App.utilization]
  · decide
  · intro a ha
    simp [cellDiv, cellMul, ha, ha.ne']

/-- Witness for the amended C1 at concrete numbers. -/
theorem c1_amended_witness :
    App.utilization 7 0 = 0 ∧
    App.utilization 50 200 = 25 ∧
    cellMul (cellDiv (Cell.num 3) (Cell.num 0)) (Cell.num 100) = Cell.pinf :=
  ⟨c1_amended.1 7, c1_amended.2.2.2.1, c1_amended.2.2.2.2.2 3 (by norm_num)⟩

/-! Section: Mutation of the loaded expenses table (claim C6) -/

/-- Counterexample to C6 as stated: the Monthly Expense Trend step of the
Financial Insights page (app.py line 381) changes the loaded-data mapping —
it writes a `month` column into the cached expenses table in place. -/
theorem c6_counterexample :
    App.financial_insights_month_step exD6 = some exD6' ∧ exD6' ≠ exD6 := by
  constructor
  · decide
  · decide

/-- Amended C6: the Project Analytics filter works on a copy (claim C10) and
the other cited aggregations build derived frames, but the Monthly Expense
Trend step mutates the loaded mapping: it leaves every other table untouched
and replaces the expenses table by one extended with a `month` column (same
rows, one more column). -/
theorem c6_amended (data : Store) (exp : Frame)
    (h : Store.get? data "expenses" = some exp)
    (hd : "date" ∈ exp.cols) (hm : "month" ∉ exp.cols) :
    ∃ data', App.financial_insights_month_step data = some data' ∧
      (∀ n, n ≠ "expenses" → Store.get? data' n = Store.get? data n) ∧
      ∃ exp', Store.get? data' "expenses" = some exp' ∧
        exp'.cols = exp.cols ++ ["month"] ∧
        exp'.rows.length = exp.rows.length := by
  refine ⟨Store.set data "expenses"
      (exp.withCol "month" (fun r => App.to_period_M (rowGet r "date"))), ?_, ?_, ?_⟩
  · unfold App.financial_insights_month_step
    rw [h]
    simp [hd]
  · intro n hn
    exact aget_aset_ne _ _ _ _ (Ne.symm hn)
  · refine ⟨exp.withCol "month" (fun r => App.to_period_M (rowGet r "date")),
      aget_aset_self _ _ _, ?_, ?_⟩
    · simp [Frame.withCol, hm]
    · simp [Frame.withCol]

/-- Witness for the amended C6 at the concrete store `exD6`. -/
theorem c6_amended_witness :
    ∃ data', App.financial_insights_month_step exD6 = some data' ∧
      (∀ n, n ≠ "expenses" → Store.get? data' n = Store.get? exD6 n) ∧
      ∃ exp', Store.get? data' "expenses" = some exp' ∧
        exp'.cols = ["expense_id", "date"] ++ ["month"] ∧
        exp'.rows.length = ([[("expense_id", Cell.str "X1"), ("date", Cell.na)]] : List Row).length :=
  c6_amended exD6 ⟨["expense_id", "date"],
    [[("expense_id", Cell.str "X1"), ("date", Cell.na)]]⟩ (by decide) (by decide) (by decide)

/-! Section: Join semantics (claim C7) -/

/-- Counterexample to C7 as stated: the top-loggers aggregation of perform_eda
(line 122) merges with the pandas default `how='inner'`, so the timesheet hours
of employee E9 — absent from the employees table — are dropped from the
aggregated result, not retained. -/
theorem c7_counterexample :
    (DataAnalytics.top_loggers_merged exTs exEs).rows = [] ∧ exTs.rows ≠ [] := by
  constructor
  · decide
  · decide

/-- Amended C7: the financial-health, client and risk merges pass `how='left'`
and retain every left row (a left row without a match is kept, padded with
NaN), but the employee-hours merge (line 122) and the vendor-spend merge
(line 141) use the pandas-default inner join: every row they produce comes
from a left row together with a right row agreeing on the key, so a record
whose foreign key has no match in the referenced table is dropped. -/
theorem c7_amended :
    (∀ (l r : Frame) (k : String), ∀ lr ∈ l.rows,
      ∃ ext, lr ++ ext ∈ (Frame.merge l r k MergeHow.left).rows) ∧
    (∀ (l r : Frame) (k : String), ∀ mr ∈ (Frame.merge l r k MergeHow.inner).rows,
      ∃ lr ∈ l.rows, ∃ rr ∈ r.rows,
        rowGet rr k = rowGet lr k ∧ ∃ ext, mr = lr ++ ext) := by
  constructor
  · intro l r k lr hlr
    cases hfil : r.rows.filter (fun rr => rowGet rr k == rowGet lr k) with
    | nil =>
      refine ⟨(r.cols.filter (fun c => c != k)).map (fun c => (c, Cell.na)), ?_⟩
      simp only [Frame.merge, List.mem_flatMap]
      exact ⟨lr, hlr, by rw [hfil]; simp⟩
    | cons rr ms =>
      refine ⟨(r.cols.filter (fun c => c != k)).map (fun c => (c, rowGet rr c)), ?_⟩
      simp only [Frame.merge, List.mem_flatMap]
      refine ⟨lr, hlr, ?_⟩
      rw [hfil]
      simp
  · intro l r k mr hmr
    simp only [Frame.merge, List.mem_flatMap] at hmr
    obtain ⟨lr, hlr, hin⟩ := hmr
    cases hfil : r.rows.filter (fun rr => rowGet rr k == rowGet lr k) with
    | nil =>
      rw [hfil] at hin
      simp at hin
    | cons rr ms =>
      rw [hfil] at hin
      simp only [List.mem_map] at hin
      obtain ⟨rr', hrr', rfl⟩ := hin
      have hmem : rr' ∈ r.rows ∧ (rowGet rr' k == rowGet lr k) = true := by
        have hh : rr' ∈ r.rows.filter (fun rr => rowGet rr k == rowGet lr k) := by
          rw [hfil]; exact hrr'
        simpa [List.mem_filter] using hh
      exact ⟨lr, hlr, rr', hmem.1, by simpa [beq_iff_eq] using hmem.2, _, rfl⟩

/-- Witness for the amended C7 at concrete frames: the left merge keeps the
left row, and the row of a concrete inner merge decomposes into a left row
plus a key-matching right row. -/
theorem c7_amended_witness :
    (∃ ext, (exML.rows.headD []) ++ ext ∈ (Frame.merge exML exMR "employee_id" MergeHow.left).rows) ∧
    (∃ lr ∈ exML.rows, ∃ rr ∈ exMR.rows,
      rowGet rr "employee_id" = rowGet lr "employee_id" ∧
      ∃ ext, (Frame.merge exML exMR "employee_id" MergeHow.inner).rows.headD [] = lr ++ ext) :=
  ⟨c7_amended.1 exML exMR "employee_id" (exML.rows.headD []) (by decide),
   c7_amended.2 exML exMR "employee_id"
     ((Frame.merge exML exMR "employee_id" MergeHow.inner).rows.headD []) (by decide)⟩

/-! Section: Loader behaviour on missing files (claim C2) -/

theorem store_has_set_ne (s : Store) (m n : String) (f : Frame) (h : m ≠ n) :
    Store.has (Store.set s m f) n = Store.has s n := by
  simp [Store.has, Store.set, aget_aset_ne _ _ _ _ h]

theorem loadFold_has_pres (entries : List (String × String))
    (disk : String → Option Frame) (s : Store) (n : String)
    (hn : n ∉ entries.map Prod.fst) :
    Store.has (entries.foldl
      (fun dfs p =>
        match disk p.2 with
        | some df => Store.set dfs p.1 df
        | none => dfs) s) n = Store.has s n := by
  induction entries generalizing s with
  | nil => rfl
  | cons e rest ih =>
    simp only [List.map_cons, List.mem_cons, not_or] at hn
    obtain ⟨hne, hrest⟩ := hn
    rw [List.foldl_cons]
    cases hd : disk e.2 with
    | none => simpa using ih _ hrest
    | some df =>
      simp only [hd]
      rw [ih _ hrest, store_has_set_ne _ _ _ _ (fun hh => hne hh.symm)]

theorem loadFold_has (entries : List (String × String))
    (disk : String → Option Frame) (s : Store) (n fn : String)
    (hmem : (n, fn) ∈ entries) (hnodup : (entries.map Prod.fst).Nodup)
    (h0 : Store.has s n = false) :
    Store.has (entries.foldl
      (fun dfs p =>
        match disk p.2 with
        | some df => Store.set dfs p.1 df
        | none => dfs) s) n = (disk fn).isSome := by
  induction entries generalizing s with
  | nil => simp at hmem
  | cons e rest ih =>
    simp only [List.map_cons, List.nodup_cons] at hnodup
    obtain ⟨hhead, hrest⟩ := hnodup
    rw [List.foldl_cons]
    rcases List.mem_cons.mp hmem with heq | htail
    · have h1 : e.1 = n := by rw [← heq]
      have h2 : e.2 = fn := by rw [← heq]
      subst h1
      subst h2
      cases hd : disk e.2 with
      | none =>
        simp only [hd]
        rw [loadFold_has_pres _ _ _ _ hhead, h0]
        rfl
      | some df =>
        simp only [hd]
        rw [loadFold_has_pres _ _ _ _ hhead]
        simp [Store.has, Store.set, aget_aset_self]
    · have hne : e.1 ≠ n := by
        intro hcontra
        exact hhead (hcontra ▸ (List.mem_map_of_mem Prod.fst htail))
      cases hd : disk e.2 with
      | none => exact ih _ htail hrest h0
      | some df =>
        simp only [hd]
        exact ih _ htail hrest (by rw [store_has_set_ne _ _ _ _ hne, h0])

theorem appFold_ok_iff (entries : List (String × String))
    (disk : String → Option Frame) (s : Store) :
    (∃ t, entries.foldlM
      (fun data p =>
        match disk p.2 with
        | some df => Except.ok (Store.set data p.1 df)
        | none => (Except.error p.2 : Except String Store)) s = Except.ok t) ↔
      ∀ p ∈ entries, (disk p.2).isSome = true := by
  induction entries generalizing s with
  | nil => simp [List.foldlM_nil, pure, Except.pure]
  | cons e rest ih =>
    rw [List.foldlM_cons]
    cases hd : disk e.2 with
    | none =>
      simp only [hd]
      constructor
      · rintro ⟨t, ht⟩
        exact absurd ht (by simp [Bind.bind, Except.bind])
      · intro hall
        have := hall e (by simp)
        rw [hd] at this
        simp at this
    | some df =>
      simp only [hd]
      constructor
      · rintro ⟨t, ht⟩
        intro p hp
        rcases List.mem_cons.mp hp with rfl | htail
        · rw [hd]; rfl
        · have : ∃ t, rest.foldlM _ (Store.set s e.1 df) = Except.ok t := ⟨t, by
            simpa [Bind.bind, Except.bind] using ht⟩
          exact (ih (Store.set s e.1 df)).mp this p htail
      · intro hall
        obtain ⟨t, ht⟩ := (ih (Store.set s e.1 df)).mpr
          (fun p hp => hall p (List.mem_cons_of_mem _ hp))
        exact ⟨t, by simpa [Bind.bind, Except.bind] using ht⟩

/-- Counterexample to C2 as stated: with every backing file absent, the
dashboard loader (app.load_data, lines 59-89) does not record omissions and
continue — `pd.read_csv('projects.csv')` raises at its very first read and the
load aborts. -/
theorem c2_counterexample :
    App.load_data (fun _ => none) = Except.error "projects.csv" := by decide

/-- Amended C2: only the EDA path satisfies the claim — its loader records
exactly the present files and its financial section is skipped when an input
table is missing.  The dashboard loader succeeds only when every one of its
ten files is present (any absent file raises), and the batch report generator
raises a KeyError on a missing projects table even though its own loader
tolerates absent files. -/
theorem c2_amended :
    (∀ (disk : String → Option Frame) (n fn : String),
      (n, fn) ∈ DataAnalytics.da_files →
      Store.has (DataAnalytics.load_data disk) n = (disk fn).isSome) ∧
    (∀ disk : String → Option Frame,
      (∃ t, App.load_data disk = Except.ok t) ↔
        ∀ p ∈ App.app_files, (disk p.2).isSome = true) ∧
    (∀ dfs : Store, Store.has dfs "projects" = false →
      DataAnalytics.perform_eda_financial dfs = none) ∧
    (∀ dfs : Store, Store.get? dfs "projects" = none →
      Report.generate_html_report_data dfs = Except.error "projects") := by
  refine ⟨?_, ?_, ?_, ?_⟩
  · intro disk n fn hmem
    exact loadFold_has _ _ _ _ _ hmem (by decide) rfl
  · intro disk
    unfold App.load_data
    constructor
    · rintro ⟨t, ht⟩
      refine (appFold_ok_iff App.app_files disk []).mp ?_
      cases hf : App.app_files.foldlM
        (fun data p =>
          match disk p.2 with
          | some df => Except.ok (Store.set data p.1 df)
          | none => (Except.error p.2 : Except String Store)) [] with
      | ok t' => exact ⟨t', rfl⟩
      | error e =>
        rw [hf] at ht
        exact absurd ht (by simp [Bind.bind, Except.bind])
    · intro hall
      obtain ⟨t, ht⟩ := (appFold_ok_iff App.app_files disk []).mpr hall
      refine ⟨App.applyDates t App.appDateCols, ?_⟩
      rw [ht]
      rfl
  · intro dfs h
    have hget : Store.get? dfs "projects" = none := by
      unfold Store.has at h
      unfold Store.get?
      cases hg : aget dfs "projects" with
      | none => rfl
      | some f =>
        rw [hg] at h
        simp at h
    unfold DataAnalytics.perform_eda_financial
    rw [hget]
  · intro dfs h
    unfold Report.generate_html_report_data
    rw [h]
    rfl

/-- Witness for the amended C2 at a concrete disk holding only projects.csv
and at the empty store. -/
theorem c2_amended_witness :
    Store.has (DataAnalytics.load_data exDisk) "projects" = (exDisk "projects.csv").isSome ∧
    Store.has (DataAnalytics.load_data exDisk) "expenses" = (exDisk "expenses.csv").isSome ∧
    ((∃ t, App.load_data exDisk = Except.ok t) ↔
      ∀ p ∈ App.app_files, (exDisk p.2).isSome = true) ∧
    DataAnalytics.perform_eda_financial [] = none ∧
    Report.generate_html_report_data [] = Except.error "projects" :=
  ⟨c2_amended.1 exDisk "projects" "projects.csv" (by decide),
   c2_amended.1 exDisk "expenses" "expenses.csv" (by decide),
   c2_amended.2.1 exDisk,
   c2_amended.2.2.1 [] (by decide),
   c2_amended.2.2.2 [] (by decide)⟩

/-! Section: The group-sum partition law (claim C9) -/

theorem dkeys_aux_mono (rows : List Row) (key : String) (acc : List Cell)
    (x : Cell) (hx : x ∈ acc) :
    x ∈ rows.foldl
      (fun acc r =>
        let k := rowGet r key
        if k = Cell.na ∨ k ∈ acc then acc else acc ++ [k]) acc := by
  induction rows generalizing acc with
  | nil => exact hx
  | cons r rest ih =>
    rw [List.foldl_cons]
    by_cases hc : rowGet r key = Cell.na ∨ rowGet r key ∈ acc
    · simpa [hc] using ih _ hx
    · simp only [hc, if_false]
      exact ih _ (List.mem_append_left _ hx)

theorem dkeys_aux_mem (rows : List Row) (key : String) (acc : List Cell)
    (r : Row) (hr : r ∈ rows) (hna : rowGet r key ≠ Cell.na) :
    rowGet r key ∈ rows.foldl
      (fun acc r =>
        let k := rowGet r key
        if k = Cell.na ∨ k ∈ acc then acc else acc ++ [k]) acc := by
  induction rows generalizing acc with
  | nil => simp at hr
  | cons r0 rest ih =>
    rw [List.foldl_cons]
    rcases List.mem_cons.mp hr with rfl | htail
    · by_cases hc : rowGet r key = Cell.na ∨ rowGet r key ∈ acc
      · rcases hc with hc | hc
        · exact absurd hc hna
        · simp only [hna, hc, or_true, if_true]
          exact dkeys_aux_mono _ _ _ _ hc
      · simp only [hc, if_false]
        exact dkeys_aux_mono _ _ _ _ (List.mem_append_right _ (by simp))
    · exact ih _ htail

theorem dkeys_aux_nodup (rows : List Row) (key : String) (acc : List Cell)
    (hacc : acc.Nodup) :
    (rows.foldl
      (fun acc r =>
        let k := rowGet r key
        if k = Cell.na ∨ k ∈ acc then acc else acc ++ [k]) acc).Nodup := by
  induction rows generalizing acc with
  | nil => exact hacc
  | cons r rest ih =>
    rw [List.foldl_cons]
    by_cases hc : rowGet r key = Cell.na ∨ rowGet r key ∈ acc
    · simpa [hc] using ih _ hacc
    · simp only [hc, if_false]
      refine ih _ ?_
      rw [List.nodup_append]
      refine ⟨hacc, by simp, ?_⟩
      intro x hx hx'
      simp only [List.mem_singleton] at hx'
      subst hx'
      exact hc (Or.inr hx)

theorem dkeys_nodup (rows : List Row) (key : String) : (dkeys rows key).Nodup :=
  dkeys_aux_nodup rows key [] List.nodup_nil

theorem dkeys_mem (rows : List Row) (key : String) (r : Row) (hr : r ∈ rows)
    (hna : rowGet r key ≠ Cell.na) : rowGet r key ∈ dkeys rows key :=
  dkeys_aux_mem rows key [] r hr hna

theorem list_sum_map_add (l : List Cell) (f g : Cell → ℚ) :
    (l.map (fun x => f x + g x)).sum = (l.map f).sum + (l.map g).sum := by
  induction l with
  | nil => simp
  | cons x l ih =>
    simp only [List.map_cons, List.sum_cons, ih]
    ring

theorem sum_indicator (L : List Cell) (x : Cell) (c : ℚ) (hN : L.Nodup)
    (hx : x ∈ L) :
    (L.map (fun k => if x = k then c else 0)).sum = c := by
  induction L with
  | nil => simp at hx
  | cons k L ih =>
    rw [List.nodup_cons] at hN
    rcases List.mem_cons.mp hx with rfl | htail
    · simp only [List.map_cons, List.sum_cons, if_pos rfl]
      have hz : (L.map (fun k' => if x = k' then c else 0)).sum = 0 := by
        refine List.sum_eq_zero ?_
        intro y hy
        simp only [List.mem_map] at hy
        obtain ⟨k', hk', rfl⟩ := hy
        have : x ≠ k' := fun hc => hN.1 (hc ▸ hk')
        simp [this]
      rw [hz, add_zero]
      simp
    · have hne : x ≠ k := fun hc => hN.1 (hc ▸ htail)
      simp only [List.map_cons, List.sum_cons, if_neg hne, zero_add]
      exact ih hN.2 htail

theorem partition_sum (key val : String) (L : List Cell) (rows : List Row)
    (hN : L.Nodup) (hmem : ∀ r ∈ rows, rowGet r key ∈ L) :
    (L.map (fun k =>
      ((rows.filter (fun r => rowGet r key == k)).map
        (fun r => cellQ (rowGet r val))).sum)).sum =
      (rows.map (fun r => cellQ (rowGet r val))).sum := by
  induction rows with
  | nil => simp
  | cons r rows ih =>
    have hr : rowGet r key ∈ L := hmem r (by simp)
    have hstep : ∀ k : Cell,
        (((r :: rows).filter (fun r' => rowGet r' key == k)).map
          (fun r' => cellQ (rowGet r' val))).sum =
        ((rows.filter (fun r' => rowGet r' key == k)).map
          (fun r' => cellQ (rowGet r' val))).sum +
        (if rowGet r key = k then cellQ (rowGet r val) else 0) := by
      intro k
      rw [List.filter_cons]
      by_cases hk : rowGet r key = k
      · simp [hk]
        ring
      · have : (rowGet r key == k) = false := by
          simpa [beq_iff_eq] using hk
        simp [this, hk]
    calc (L.map (fun k =>
            (((r :: rows).filter (fun r' => rowGet r' key == k)).map
              (fun r' => cellQ (rowGet r' val))).sum)).sum
        = (L.map (fun k =>
            ((rows.filter (fun r' => rowGet r' key == k)).map
              (fun r' => cellQ (rowGet r' val))).sum +
            (if rowGet r key = k then cellQ (rowGet r val) else 0))).sum := by
          congr 1
          exact List.map_congr_left (fun k _ => hstep k)
      _ = (L.map (fun k =>
            ((rows.filter (fun r' => rowGet r' key == k)).map
              (fun r' => cellQ (rowGet r' val))).sum)).sum +
          (L.map (fun k =>
            if rowGet r key = k then cellQ (rowGet r val) else 0)).sum :=
          list_sum_map_add _ _ _
      _ = (rows.map (fun r' => cellQ (rowGet r' val))).sum + cellQ (rowGet r val) := by
          rw [ih (fun r' hr' => hmem r' (List.mem_cons_of_mem _ hr')),
            sum_indicator L (rowGet r key) _ hN hr]
      _ = ((r :: rows).map (fun r' => cellQ (rowGet r' val))).sum := by
          simp [add_comm]

/-- Counterexample to C9 as stated: pandas `groupby` drops rows whose group
key is NaN, so over a table with one NaN key the sum of the per-group sums
(10) differs from the whole-table sum of the value column (17). -/
theorem c9_counterexample :
    colSum (groupbySumFrame exF9 "g" "v" "total") "total" ≠ colSum exF9 "v" := by
  norm_num +decide [colSum, groupbySumFrame, dkeys, cellQ, rowGet, aget_nil, aget_cons, exF9,
    List.insertionSort, List.orderedInsert, cellLeP, cellLe, cellRank, List.filter_cons,
    List.filter_nil]

/-- Amended C9: for a group-sum aggregation whose output column differs from
the key column, over a table in which every row's group key is present
(non-NaN), the sum of the per-group sums equals the NaN-skipping sum of the
value column over the whole table; rows with a NaN group key are silently
excluded by pandas groupby, so the partition law holds exactly on tables with
no missing group keys. -/
theorem c9_partition (f : Frame) (key val out : String) (hko : key ≠ out)
    (hna : ∀ r ∈ f.rows, rowGet r key ≠ Cell.na) :
    colSum (groupbySumFrame f key val out) out = colSum f val := by
  have hbeq : (key == out) = false := by
    simpa [beq_iff_eq] using hko
  have hread : ∀ k s, rowGet [(key, k), (out, Cell.num s)] out = Cell.num s := by
    intro k s
    simp [rowGet, aget_cons, hbeq]
  unfold colSum groupbySumFrame
  simp only [List.map_map]
  have hcomp : ((List.insertionSort cellLeP (dkeys f.rows key)).map
      ((fun r => cellQ (rowGet r out)) ∘ (fun k =>
        [(key, k),
         (out, Cell.num
           (((f.rows.filter (fun r => rowGet r key == k)).map
             (fun r => cellQ (rowGet r val))).sum))]))) =
      ((List.insertionSort cellLeP (dkeys f.rows key)).map (fun k =>
        ((f.rows.filter (fun r => rowGet r key == k)).map
          (fun r => cellQ (rowGet r val))).sum)) := by
    refine List.map_congr_left ?_
    intro k _
    simp only [Function.comp]
    rw [hread]
    rfl
  rw [hcomp]
  rw [List.Perm.sum_eq (List.Perm.map _ (List.perm_insertionSort cellLeP (dkeys f.rows key)))]
  exact partition_sum key val (dkeys f.rows key) f.rows (dkeys_nodup _ _)
    (fun r hr => dkeys_mem _ _ r hr (hna r hr))

/-- Witness for the amended C9 at the specification's own example table
(A:10, A:5, B:7 — per-group sums 15 and 7, total 22). -/
theorem c9_partition_witness :
    colSum (groupbySumFrame exW9 "g" "v" "total") "total" = colSum exW9 "v" :=
  c9_partition exW9 "g" "v" "total" (by decide) (by decide)

/-! Section: Tracing one column through the ETL fold (claims C4 and C8) -/

theorem store_get_set_self (s : Store) (n : String) (f : Frame) :
    Store.get? (Store.set s n f) n = some f :=
  aget_aset_self s n f

theorem store_get_set_ne (s : Store) (m n : String) (f : Frame) (h : m ≠ n) :
    Store.get? (Store.set s m f) n = Store.get? s n :=
  aget_aset_ne s n m f h

theorem runJob_get_other (s t : Store) (j : Job) (h : runJob s j = some t)
    (n : String) (hn : n ≠ j.tbl) : Store.get? t n = Store.get? s n := by
  unfold runJob at h
  cases hs : Store.get? s j.tbl with
  | none =>
    rw [hs] at h
    obtain rfl := Option.some.inj h
    rfl
  | some f =>
    simp only [hs] at h
    by_cases hc : j.col ∈ f.cols
    · rw [if_pos hc] at h
      obtain rfl := Option.some.inj h
      exact store_get_set_ne _ _ _ _ (fun hh => hn hh.symm)
    · rw [if_neg hc] at h
      cases hstr : j.strict with
      | true => rw [hstr] at h; simp at h
      | false =>
        rw [hstr] at h
        simp only [if_neg Bool.false_ne_true] at h
        obtain rfl := Option.some.inj h
        rfl

theorem runJob_tbl (s t : Store) (j : Job) (f : Frame) (h : runJob s j = some t)
    (hf : Store.get? s j.tbl = some f) :
    Store.get? t j.tbl =
      some (if j.col ∈ f.cols then f.mapCol j.col (cellConv j.conv) else f) := by
  unfold runJob at h
  simp only [hf] at h
  by_cases hc : j.col ∈ f.cols
  · rw [if_pos hc] at h ⊢
    obtain rfl := Option.some.inj h
    exact store_get_set_self _ _ _
  · rw [if_neg hc] at h ⊢
    cases hstr : j.strict with
    | true => rw [hstr] at h; simp at h
    | false =>
      rw [hstr] at h
      simp only [if_neg Bool.false_ne_true] at h
      obtain rfl := Option.some.inj h
      exact hf

theorem runJob_strict_col (s t : Store) (j : Job) (f : Frame)
    (h : runJob s j = some t) (hf : Store.get? s j.tbl = some f)
    (hstr : j.strict = true) : j.col ∈ f.cols := by
  by_contra hc
  unfold runJob at h
  simp only [hf, if_neg hc, hstr] at h
  simp at h

theorem mapCol_cols (f : Frame) (c : String) (g : Cell → Cell) :
    (f.mapCol c g).cols = f.cols := rfl

theorem mapCol_length (f : Frame) (c : String) (g : Cell → Cell) :
    (f.mapCol c g).rows.length = f.rows.length := by
  simp [Frame.mapCol]

theorem mapCol_rowGet_self (f : Frame) (c : String) (g : Cell → Cell)
    (i : ℕ) (hi : i < f.rows.length) (hi' : i < (f.mapCol c g).rows.length) :
    rowGet ((f.mapCol c g).rows.get ⟨i, hi'⟩) c =
      g (rowGet (f.rows.get ⟨i, hi⟩) c) := by
  simp only [Frame.mapCol, List.get_eq_getElem, List.getElem_map]
  exact rowGet_aset_self _ _ _

theorem mapCol_rowGet_other (f : Frame) (c c' : String) (g : Cell → Cell)
    (hne : c ≠ c') (i : ℕ) (hi : i < f.rows.length)
    (hi' : i < (f.mapCol c g).rows.length) :
    rowGet ((f.mapCol c g).rows.get ⟨i, hi'⟩) c' =
      rowGet (f.rows.get ⟨i, hi⟩) c' := by
  simp only [Frame.mapCol, List.get_eq_getElem, List.getElem_map]
  exact rowGet_aset_ne _ _ _ _ hne

theorem fold_trace_none (js : List Job) (s t : Store) (tbl col : String)
    (h : js.foldlM runJob s = some t)
    (hnone : js.filter (fun j => j.tbl == tbl && j.col == col) = [])
    (f : Frame) (hf : Store.get? s tbl = some f) :
    ∃ f', Store.get? t tbl = some f' ∧ f'.cols = f.cols ∧
      f'.rows.length = f.rows.length ∧
      ∀ i (hi : i < f.rows.length) (hi' : i < f'.rows.length),
        rowGet (f'.rows.get ⟨i, hi'⟩) col = rowGet (f.rows.get ⟨i, hi⟩) col := by
  induction js generalizing s f with
  | nil =>
    rw [List.foldlM_nil] at h
    simp only [Option.pure_def] at h
    obtain rfl := Option.some.inj h
    exact ⟨f, hf, rfl, rfl, fun i hi hi' => rfl⟩
  | cons j rest ih =>
    rw [List.foldlM_cons] at h
    cases hs1 : runJob s j with
    | none =>
      rw [hs1] at h
      simp [Bind.bind, Option.bind] at h
    | some s1 =>
      rw [hs1] at h
      simp only [Bind.bind, Option.bind] at h
      rw [List.filter_cons] at hnone
      by_cases hj : (j.tbl == tbl && j.col == col) = true
      · rw [if_pos hj] at hnone
        simp at hnone
      · rw [if_neg hj] at hnone
        by_cases htbl : j.tbl = tbl
        · have hcol : j.col ≠ col := by
            intro hc
            exact hj (by simp [htbl, hc])
          have hft := runJob_tbl s s1 j f hs1 (by rw [htbl]; exact hf)
          rw [htbl] at hft
          by_cases hc : j.col ∈ f.cols
          · rw [if_pos hc] at hft
            obtain ⟨f', ht, hcols, hlen, hvals⟩ := ih s1 h hnone _ hft
            refine ⟨f', ht, by rw [hcols]; rfl, by rw [hlen, mapCol_length], ?_⟩
            intro i hi hi'
            have hi2 : i < (f.mapCol j.col (cellConv j.conv)).rows.length := by
              rw [mapCol_length]
              exact hi
            rw [hvals i hi2 hi', mapCol_rowGet_other f j.col col _ hcol i hi hi2]
          · rw [if_neg hc] at hft
            exact ih s1 h hnone _ hft
        · have hpres := runJob_get_other s s1 j hs1 tbl (fun hh => htbl hh.symm)
          exact ih s1 h hnone _ (by rw [hpres]; exact hf)

theorem fold_trace_once (js : List Job) (s t : Store) (tbl col : String)
    (j₀ : Job)
    (h : js.foldlM runJob s = some t)
    (hfil : js.filter (fun j => j.tbl == tbl && j.col == col) = [j₀])
    (f : Frame) (hf : Store.get? s tbl = some f) (hc : col ∈ f.cols) :
    ∃ f', Store.get? t tbl = some f' ∧ f'.cols = f.cols ∧
      f'.rows.length = f.rows.length ∧
      ∀ i (hi : i < f.rows.length) (hi' : i < f'.rows.length),
        rowGet (f'.rows.get ⟨i, hi'⟩) col =
          cellConv j₀.conv (rowGet (f.rows.get ⟨i, hi⟩) col) := by
  induction js generalizing s f with
  | nil => simp at hfil
  | cons j rest ih =>
    rw [List.foldlM_cons] at h
    cases hs1 : runJob s j with
    | none =>
      rw [hs1] at h
      simp [Bind.bind, Option.bind] at h
    | some s1 =>
      rw [hs1] at h
      simp only [Bind.bind, Option.bind] at h
      rw [List.filter_cons] at hfil
      by_cases hj : (j.tbl == tbl && j.col == col) = true
      · rw [if_pos hj] at hfil
        obtain ⟨rfl, hrest⟩ : j = j₀ ∧ rest.filter (fun j => j.tbl == tbl && j.col == col) = [] := by
          constructor
          · exact (List.cons.injEq _ _ _ _ ▸ hfil).1
          · exact (List.cons.injEq _ _ _ _ ▸ hfil).2
        have hkey : j.tbl = tbl ∧ j.col = col := by
          simpa [Bool.and_eq_true, beq_iff_eq] using hj
        have hft := runJob_tbl s s1 j f hs1 (by rw [hkey.1]; exact hf)
        rw [hkey.1] at hft
        rw [hkey.2] at hft
        rw [if_pos hc] at hft
        obtain ⟨f', ht, hcols, hlen, hvals⟩ := fold_trace_none rest s1 t tbl col h hrest _ hft
        refine ⟨f', ht, by rw [hcols]; rfl, by rw [hlen, mapCol_length], ?_⟩
        intro i hi hi'
        have hi2 : i < (f.mapCol col (cellConv j.conv)).rows.length := by
          rw [mapCol_length]
          exact hi
        rw [hvals i hi2 hi', mapCol_rowGet_self f col _ i hi hi2]
      · rw [if_neg hj] at hfil
        by_cases htbl : j.tbl = tbl
        · have hcol : j.col ≠ col := by
            intro hcc
            exact hj (by simp [htbl, hcc])
          have hft := runJob_tbl s s1 j f hs1 (by rw [htbl]; exact hf)
          rw [htbl] at hft
          by_cases hcin : j.col ∈ f.cols
          · rw [if_pos hcin] at hft
            obtain ⟨f', ht, hcols, hlen, hvals⟩ := ih s1 h hfil _ hft hc
            refine ⟨f', ht, by rw [hcols]; rfl, by rw [hlen, mapCol_length], ?_⟩
            intro i hi hi'
            have hi2 : i < (f.mapCol j.col (cellConv j.conv)).rows.length := by
              rw [mapCol_length]
              exact hi
            rw [hvals i hi2 hi', mapCol_rowGet_other f j.col col _ hcol i hi hi2]
          · rw [if_neg hcin] at hft
            exact ih s1 h hfil _ hft hc
        · have hpres := runJob_get_other s s1 j hs1 tbl (fun hh => htbl hh.symm)
          exact ih s1 h hfil _ (by rw [hpres]; exact hf) hc

theorem numTrace (js : List Job) (s t : Store) (tbl col : String) (j₀ : Job)
    (h : js.foldlM runJob s = some t)
    (hfil : js.filter (fun j => j.tbl == tbl && j.col == col) = [j₀])
    (hconv : j₀.conv = Conv.cnum)
    (f : Frame) (hf : Store.get? s tbl = some f) (hc : col ∈ f.cols) :
    ∃ f', Store.get? t tbl = some f' ∧ f'.cols = f.cols ∧
      f'.rows.length = f.rows.length ∧
      ∀ i (hi : i < f.rows.length) (hi' : i < f'.rows.length),
        rowGet (f'.rows.get ⟨i, hi'⟩) col =
          numClean (rowGet (f.rows.get ⟨i, hi⟩) col) := by
  obtain ⟨f', ht, hcols, hlen, hvals⟩ := fold_trace_once js s t tbl col j₀ h hfil f hf hc
  refine ⟨f', ht, hcols, hlen, fun i hi hi' => ?_⟩
  rw [hvals i hi hi', hconv]
  rfl

theorem numClean_na : numClean Cell.na = Cell.num 0 := rfl

theorem numClean_unparseable (sv : String) (hp : parseNumStr sv = none) :
    numClean (Cell.str sv) = Cell.num 0 := by
  simp [numClean, toNumeric, fillna0, hp]

theorem numClean_inputOk (c : Cell) (hok : InputOk c) :
    ∃ q, numClean c = Cell.num q ∧ 0 ≤ q := by
  cases c with
  | na => exact ⟨0, rfl, le_refl 0⟩
  | num q =>
    refine ⟨q, ?_, hok⟩
    simp [numClean, toNumeric, fillna0]
  | str sv =>
    cases hp : parseNumStr sv with
    | none => exact ⟨0, numClean_unparseable sv hp, le_refl 0⟩
    | some q =>
      refine ⟨q, ?_, hok q hp⟩
      simp [numClean, toNumeric, fillna0, hp]
  | date d => exact absurd hok (by simp [InputOk])
  | pinf => exact absurd hok (by simp [InputOk])
  | ninf => exact absurd hok (by simp [InputOk])

/-- Counterexample to C4 as stated: after the ETL pass a missing
`hours_logged` cell in the timesheets table is still absent (NaN), not zero —
no cleaning step of etl_process or load_and_clean touches `hours_logged`. -/
theorem c4_counterexample :
    DataAnalytics.etl_process exS4 = some exT4 ∧
    rowGet (((Store.get? exT4 "timesheets").getD ⟨[], []⟩).rows.headD [])
      "hours_logged" = Cell.na ∧
    Cell.na ≠ Cell.num 0 := by
  refine ⟨by decide, by decide, by decide⟩

theorem etl_money_trace (s t : Store) (h : DataAnalytics.etl_process s = some t)
    (tbl col : String)
    (hin : (tbl, col) ∈ [("projects", "budget_aed"), ("expenses", "amount_aed"),
      ("purchase_orders", "amount_aed"), ("employees", "salary_aed")])
    (f : Frame) (hf : Store.get? s tbl = some f) (hc : col ∈ f.cols) :
    ∃ f', Store.get? t tbl = some f' ∧ f'.rows.length = f.rows.length ∧
      ∀ i (hi : i < f.rows.length) (hi' : i < f'.rows.length),
        rowGet (f'.rows.get ⟨i, hi'⟩) col =
          numClean (rowGet (f.rows.get ⟨i, hi⟩) col) ∧
        (rowGet (f.rows.get ⟨i, hi⟩) col = Cell.na →
          rowGet (f'.rows.get ⟨i, hi'⟩) col = Cell.num 0) ∧
        (∀ sv, rowGet (f.rows.get ⟨i, hi⟩) col = Cell.str sv →
          parseNumStr sv = none →
          rowGet (f'.rows.get ⟨i, hi'⟩) col = Cell.num 0) := by
  have hcore : ∀ j₀ : Job,
      DataAnalytics.etlJobs.filter (fun j => j.tbl == tbl && j.col == col) = [j₀] →
      j₀.conv = Conv.cnum →
      ∃ f', Store.get? t tbl = some f' ∧ f'.rows.length = f.rows.length ∧
        ∀ i (hi : i < f.rows.length) (hi' : i < f'.rows.length),
          rowGet (f'.rows.get ⟨i, hi'⟩) col =
            numClean (rowGet (f.rows.get ⟨i, hi⟩) col) ∧
          (rowGet (f.rows.get ⟨i, hi⟩) col = Cell.na →
            rowGet (f'.rows.get ⟨i, hi'⟩) col = Cell.num 0) ∧
          (∀ sv, rowGet (f.rows.get ⟨i, hi⟩) col = Cell.str sv →
            parseNumStr sv = none →
            rowGet (f'.rows.get ⟨i, hi'⟩) col = Cell.num 0) := by
    intro j₀ hfil hconv
    obtain ⟨f', ht, hcols, hlen, hvals⟩ :=
      numTrace DataAnalytics.etlJobs s t tbl col j₀ h hfil hconv f hf hc
    refine ⟨f', ht, hlen, fun i hi hi' => ?_⟩
    refine ⟨hvals i hi hi', ?_, ?_⟩
    · intro hna
      rw [hvals i hi hi', hna, numClean_na]
    · intro sv hsv hp
      rw [hvals i hi hi', hsv, numClean_unparseable sv hp]
  simp only [List.mem_cons, List.mem_singleton, List.not_mem_nil, or_false] at hin
  rcases hin with h1 | h1 | h1 | h1 <;>
    rw [Prod.mk.injEq] at h1 <;> obtain ⟨rfl, rfl⟩ := h1
  · exact hcore ⟨"projects", "budget_aed", Conv.cnum, true⟩ (by decide) rfl
  · exact hcore ⟨"expenses", "amount_aed", Conv.cnum, true⟩ (by decide) rfl
  · exact hcore ⟨"purchase_orders", "amount_aed", Conv.cnum, true⟩ (by decide) rfl
  · exact hcore ⟨"employees", "salary_aed", Conv.cnum, true⟩ (by decide) rfl

/-- Amended C4: for the money columns that etl_process actually converts —
projects.budget_aed, expenses.amount_aed, purchase_orders.amount_aed,
employees.salary_aed — every cell is the numeric cleaning of the loaded cell,
so a missing (NaN) or unparseable input cell comes out as the number 0;
timesheets.hours_logged is not among the converted columns and keeps its
loaded value (a missing hours cell stays absent). -/
theorem c4_amended (s t : Store) (h : DataAnalytics.etl_process s = some t)
    (tbl col : String)
    (hin : (tbl, col) ∈ [("projects", "budget_aed"), ("expenses", "amount_aed"),
      ("purchase_orders", "amount_aed"), ("employees", "salary_aed")])
    (f : Frame) (hf : Store.get? s tbl = some f) (hc : col ∈ f.cols) :
    ∃ f', Store.get? t tbl = some f' ∧ f'.rows.length = f.rows.length ∧
      ∀ i (hi : i < f.rows.length) (hi' : i < f'.rows.length),
        rowGet (f'.rows.get ⟨i, hi'⟩) col =
          numClean (rowGet (f.rows.get ⟨i, hi⟩) col) ∧
        (rowGet (f.rows.get ⟨i, hi⟩) col = Cell.na →
          rowGet (f'.rows.get ⟨i, hi'⟩) col = Cell.num 0) ∧
        (∀ sv, rowGet (f.rows.get ⟨i, hi⟩) col = Cell.str sv →
          parseNumStr sv = none →
          rowGet (f'.rows.get ⟨i, hi'⟩) col = Cell.num 0) :=
  etl_money_trace s t h tbl col hin f hf hc

/-- Witness for the amended C4 at a concrete store whose expenses table has a
NaN amount: after ETL that cell is the number 0. -/
theorem c4_amended_witness :
    ∃ f', Store.get? exTW "expenses" = some f' ∧
      f'.rows.length =
        (⟨["project_id", "amount_aed"],
          [[("project_id", Cell.str "P1"), ("amount_aed", Cell.na)]]⟩ : Frame).rows.length ∧
      ∀ i (hi : i < (⟨["project_id", "amount_aed"],
          [[("project_id", Cell.str "P1"), ("amount_aed", Cell.na)]]⟩ : Frame).rows.length)
        (hi' : i < f'.rows.length),
        rowGet (f'.rows.get ⟨i, hi'⟩) "amount_aed" =
          numClean (rowGet ((⟨["project_id", "amount_aed"],
            [[("project_id", Cell.str "P1"), ("amount_aed", Cell.na)]]⟩ : Frame).rows.get ⟨i, hi⟩) "amount_aed") ∧
        (rowGet ((⟨["project_id", "amount_aed"],
            [[("project_id", Cell.str "P1"), ("amount_aed", Cell.na)]]⟩ : Frame).rows.get ⟨i, hi⟩) "amount_aed" = Cell.na →
          rowGet (f'.rows.get ⟨i, hi'⟩) "amount_aed" = Cell.num 0) ∧
        (∀ sv, rowGet ((⟨["project_id", "amount_aed"],
            [[("project_id", Cell.str "P1"), ("amount_aed", Cell.na)]]⟩ : Frame).rows.get ⟨i, hi⟩) "amount_aed" = Cell.str sv →
          parseNumStr sv = none →
          rowGet (f'.rows.get ⟨i, hi'⟩) "amount_aed" = Cell.num 0) :=
  c4_amended exSW exTW (by decide) "expenses" "amount_aed" (by decide)
    ⟨["project_id", "amount_aed"],
     [[("project_id", Cell.str "P1"), ("amount_aed", Cell.na)]]⟩ (by decide) (by decide)

/-- Counterexample to C8 as stated: a negative loaded budget value passes
through normalization unchanged — nothing clamps the money columns, so the
invariant "non-negative after normalization" fails. -/
theorem c8_counterexample :
    DataAnalytics.etl_process exS8 = some exT8 ∧
    rowGet (((Store.get? exT8 "projects").getD ⟨[], []⟩).rows.headD [])
      "budget_aed" = Cell.num (-5) ∧
    ¬ (0 : ℚ) ≤ -5 := by
  refine ⟨by decide, by decide, by decide⟩

/-- Amended C8: normalization only guarantees non-negativity conditionally —
for the columns etl_process converts (projects.budget_aed,
expenses.amount_aed, purchase_orders.amount_aed, employees.salary_aed), if
every loaded cell of the column is absent, a non-negative number, or a string
that parses (if at all) to a non-negative number, then after ETL every cell of
the column is a non-negative number; a negative input survives, and
hours_logged is never normalized at all. -/
theorem c8_amended (s t : Store) (h : DataAnalytics.etl_process s = some t)
    (tbl col : String)
    (hin : (tbl, col) ∈ [("projects", "budget_aed"), ("expenses", "amount_aed"),
      ("purchase_orders", "amount_aed"), ("employees", "salary_aed")])
    (f : Frame) (hf : Store.get? s tbl = some f) (hc : col ∈ f.cols)
    (hok : ∀ r ∈ f.rows, InputOk (rowGet r col)) :
    ∃ f', Store.get? t tbl = some f' ∧
      ∀ i (hi : i < f.rows.length) (hi' : i < f'.rows.length),
        ∃ q, rowGet (f'.rows.get ⟨i, hi'⟩) col = Cell.num q ∧ 0 ≤ q := by
  obtain ⟨f', ht, hlen, hvals⟩ := etl_money_trace s t h tbl col hin f hf hc
  refine ⟨f', ht, fun i hi hi' => ?_⟩
  obtain ⟨q, hq, hq0⟩ :=
    numClean_inputOk _ (hok (f.rows.get ⟨i, hi⟩) (List.get_mem f.rows i hi))
  exact ⟨q, by rw [(hvals i hi hi').1, hq], hq0⟩

/-- Witness for the amended C8 at the concrete store `exSW` (a NaN amount is
an acceptable input and comes out as the non-negative number 0). -/
theorem c8_amended_witness :
    ∃ f', Store.get? exTW "expenses" = some f' ∧
      ∀ i (hi : i < (⟨["project_id", "amount_aed"],
          [[("project_id", Cell.str "P1"), ("amount_aed", Cell.na)]]⟩ : Frame).rows.length)
        (hi' : i < f'.rows.length),
        ∃ q, rowGet (f'.rows.get ⟨i, hi'⟩) "amount_aed" = Cell.num q ∧ 0 ≤ q :=
  c8_amended exSW exTW (by decide) "expenses" "amount_aed" (by decide)
    ⟨["project_id", "amount_aed"],
     [[("project_id", Cell.str "P1"), ("amount_aed", Cell.na)]]⟩ (by decide) (by decide)
    (by
      intro r hr
      simp only [List.mem_singleton] at hr
      subst hr
      exact trivial)

/-! Section: Idempotence of the ETL pass (claim C5) -/

theorem toDatetime_idem (c : Cell) : toDatetime (toDatetime c) = toDatetime c := by
  cases c with
  | str s =>
    cases hp : parseDateStr s with
    | none => simp [toDatetime, hp]
    | some d => simp [toDatetime, hp]
  | na => rfl
  | num q => rfl
  | date d => rfl
  | pinf => rfl
  | ninf => rfl

theorem numClean_idem (c : Cell) : numClean (numClean c) = numClean c := by
  cases c with
  | str s =>
    cases hp : parseNumStr s with
    | none => simp [numClean, toNumeric, fillna0, hp]
    | some q => simp [numClean, toNumeric, fillna0, hp]
  | na => rfl
  | num q => rfl
  | date d => rfl
  | pinf => rfl
  | ninf => rfl

theorem cellConv_idem (cv : Conv) (c : Cell) :
    cellConv cv (cellConv cv c) = cellConv cv c := by
  cases cv with
  | cdate => exact toDatetime_idem c
  | cnum => exact numClean_idem c

theorem mapCol_id_of_ready (f : Frame) (c : String) (g : Cell → Cell)
    (hready : ∀ r ∈ f.rows, (aget r c).isSome = true ∧ g (rowGet r c) = rowGet r c) :
    f.mapCol c g = f := by
  obtain ⟨cols, rows⟩ := f
  simp only [Frame.mapCol, Frame.mk.injEq, true_and]
  refine list_map_id_of ?_
  intro r hr
  obtain ⟨hs, hfix⟩ := hready r hr
  rw [hfix]
  obtain ⟨v, hv⟩ := Option.isSome_iff_exists.mp hs
  have hvv : rowGet r c = v := by simp [rowGet, hv]
  rw [hvv]
  exact aset_id r c v hv

theorem store_set_id (s : Store) (n : String) (f : Frame)
    (h : Store.get? s n = some f) : Store.set s n f = s :=
  aset_id s n f h

theorem runJob_some_eq (s : Store) (j : Job) (f : Frame)
    (hs : Store.get? s j.tbl = some f) :
    runJob s j =
      if j.col ∈ f.cols then
        some (Store.set s j.tbl (f.mapCol j.col (cellConv j.conv)))
      else if j.strict = true then none else some s := by
  unfold runJob
  rw [hs]

theorem runJob_ok_id (s : Store) (j : Job) (hok : JobOk s j) :
    runJob s j = some s := by
  cases hs : Store.get? s j.tbl with
  | none =>
    unfold runJob
    rw [hs]
  | some f =>
    obtain ⟨hstrict, hready⟩ := hok f hs
    rw [runJob_some_eq s j f hs]
    by_cases hc : j.col ∈ f.cols
    · rw [if_pos hc, mapCol_id_of_ready f j.col _ (hready hc), store_set_id s j.tbl f hs]
    · rw [if_neg hc]
      cases hstr : j.strict with
      | true => exact absurd (hstrict hstr) hc
      | false => simp

theorem runJob_establish (s t : Store) (j : Job) (h : runJob s j = some t) :
    JobOk t j := by
  unfold runJob at h
  cases hs : Store.get? s j.tbl with
  | none =>
    rw [hs] at h
    obtain rfl := Option.some.inj h
    intro f hf
    rw [hs] at hf
    exact absurd hf (by simp)
  | some f =>
    simp only [hs] at h
    by_cases hc : j.col ∈ f.cols
    · rw [if_pos hc] at h
      obtain rfl := Option.some.inj h
      intro f' hf'
      rw [store_get_set_self] at hf'
      obtain rfl := Option.some.inj hf'
      constructor
      · intro _
        rw [mapCol_cols]
        exact hc
      · intro _ r hr
        simp only [Frame.mapCol, List.mem_map] at hr
        obtain ⟨r0, hr0, rfl⟩ := hr
        constructor
        · exact isSome_aget_aset_self _ _ _
        · rw [rowGet_aset_self]
          exact cellConv_idem j.conv _
    · rw [if_neg hc] at h
      cases hstr : j.strict with
      | true => rw [hstr] at h; simp at h
      | false =>
        rw [hstr] at h
        simp only [if_neg Bool.false_ne_true] at h
        obtain rfl := Option.some.inj h
        intro f' hf'
        rw [hs] at hf'
        obtain rfl := Option.some.inj hf'
        constructor
        · intro hstr2
          rw [hstr] at hstr2
          simp at hstr2
        · intro hcc
          exact absurd hcc hc

theorem runJob_pres_ok (s t : Store) (j j' : Job) (h : runJob s j' = some t)
    (hne : jobKey j ≠ jobKey j') (hok : JobOk s j) : JobOk t j := by
  unfold runJob at h
  cases hs : Store.get? s j'.tbl with
  | none =>
    rw [hs] at h
    obtain rfl := Option.some.inj h
    exact hok
  | some f' =>
    simp only [hs] at h
    by_cases hc' : j'.col ∈ f'.cols
    · rw [if_pos hc'] at h
      obtain rfl := Option.some.inj h
      by_cases htbl : j.tbl = j'.tbl
      · have hcol : j.col ≠ j'.col := by
          intro hcc
          exact hne (by simp [jobKey, htbl, hcc])
        intro g hg
        rw [htbl, store_get_set_self] at hg
        obtain rfl := Option.some.inj hg
        obtain ⟨h1, h2⟩ := hok f' (by rw [htbl]; exact hs)
        constructor
        · intro hstr
          rw [mapCol_cols]
          exact h1 hstr
        · intro hcj r hr
          rw [mapCol_cols] at hcj
          simp only [Frame.mapCol, List.mem_map] at hr
          obtain ⟨r0, hr0, rfl⟩ := hr
          obtain ⟨hsome, hfix⟩ := h2 hcj r0 hr0
          constructor
          · rw [aget_aset_ne _ _ _ _ (fun hh => hcol hh.symm)]
            exact hsome
          · rw [rowGet_aset_ne _ _ _ _ (fun hh => hcol hh.symm)]
            exact hfix
      · intro g hg
        rw [store_get_set_ne _ _ _ _ (fun hh => htbl hh.symm)] at hg
        exact hok g hg
    · rw [if_neg hc'] at h
      cases hstr : j'.strict with
      | true => rw [hstr] at h; simp at h
      | false =>
        rw [hstr] at h
        simp only [if_neg Bool.false_ne_true] at h
        obtain rfl := Option.some.inj h
        exact hok

theorem fold_pres_ok (js : List Job) (j : Job) (s t : Store)
    (h : js.foldlM runJob s = some t) (hok : JobOk s j)
    (hnot : ∀ j' ∈ js, jobKey j ≠ jobKey j') : JobOk t j := by
  induction js generalizing s with
  | nil =>
    rw [List.foldlM_nil] at h
    simp only [Option.pure_def] at h
    obtain rfl := Option.some.inj h
    exact hok
  | cons j' rest ih =>
    rw [List.foldlM_cons] at h
    cases hs1 : runJob s j' with
    | none =>
      rw [hs1] at h
      simp [Bind.bind, Option.bind] at h
    | some s1 =>
      rw [hs1] at h
      simp only [Bind.bind, Option.bind] at h
      exact ih s1 h (runJob_pres_ok s s1 j j' hs1 (hnot j' (by simp)) hok)
        (fun j'' hj => hnot j'' (List.mem_cons_of_mem _ hj))

theorem fold_establish (js : List Job) (s t : Store)
    (h : js.foldlM runJob s = some t) (hnd : (js.map jobKey).Nodup) :
    ∀ j ∈ js, JobOk t j := by
  induction js generalizing s with
  | nil =>
    intro j hj
    simp at hj
  | cons j' rest ih =>
    rw [List.foldlM_cons] at h
    cases hs1 : runJob s j' with
    | none =>
      rw [hs1] at h
      simp [Bind.bind, Option.bind] at h
    | some s1 =>
      rw [hs1] at h
      simp only [Bind.bind, Option.bind] at h
      rw [List.map_cons, List.nodup_cons] at hnd
      intro j hj
      rcases List.mem_cons.mp hj with rfl | htail
      · refine fold_pres_ok rest j s1 t h (runJob_establish s s1 j hs1) ?_
        intro j'' hj'' hcontra
        exact hnd.1 (by rw [hcontra]; exact List.mem_map_of_mem jobKey hj'')
      · exact ih s1 h hnd.2 j htail

theorem fold_ok_id (js : List Job) (s : Store) (hok : ∀ j ∈ js, JobOk s j) :
    js.foldlM runJob s = some s := by
  induction js with
  | nil => rfl
  | cons j rest ih =>
    rw [List.foldlM_cons, runJob_ok_id s j (hok j (by simp))]
    simp only [Bind.bind, Option.bind]
    exact ih (fun j' hj => hok j' (List.mem_cons_of_mem _ hj))

/-- Claim C5: normalization is idempotent — whenever the ETL pass succeeds on
a loaded set of tables, running it again on its own output succeeds and
changes nothing: every date and numeric cell (and everything else) is left
exactly as it was. -/
theorem c5_etl_idempotent (s t : Store) (h : DataAnalytics.etl_process s = some t) :
    DataAnalytics.etl_process t = some t :=
  fold_ok_id DataAnalytics.etlJobs t
    (fun j hj => fold_establish DataAnalytics.etlJobs s t h (by decide) j hj)

/-- Witness for C5 at a concrete store exercising date conversion, numeric
conversion, and NaN filling. -/
theorem c5_etl_idempotent_witness :
    DataAnalytics.etl_process exS5 = some exT5 ∧
    DataAnalytics.etl_process exT5 = some exT5 :=
  ⟨by decide, c5_etl_idempotent exS5 exT5 (by decide)⟩
